import Mathlib

/-
Shallow embedding of the Sales-Campaign-CRM pipeline
(src/sales_campaign_crm.py) and proofs about its behaviour.

The backing store (a spreadsheet, accessed through gspread in the
source) is modelled as a header row plus a list of data rows.  External
effects (address validation, SMTP delivery, exceptions raised by
external calls) are modelled as explicit oracle parameters, so every
definition below is an executable function of the record snapshot and
those oracles, translated directly from the corresponding Python
method.
-/

set_option autoImplicit false

namespace CRM

/-- Python str.lower, written as a character-wise map so that it
reduces on concrete inputs. -/
def strLower (s : String) : String := String.mk (s.data.map Char.toLower)

/-- Truthiness of the result of a Python dict.get call: a missing key
(None) and the empty string are falsy, every other string is truthy. -/
def pyTruthy : Option String → Bool
  | none => false
  | some s => s != ""

/-- Index of the first occurrence of a key in the header row, as used by
Python list.index inside CRMHandler.update_lead (None models the
ValueError branch). -/
def colIndex? : List String → String → Option Nat
  | [], _ => none
  | h :: t, k => if h = k then some 0 else (colIndex? t k).map (fun i => i + 1)

/-- Writing a single cell of a row at a given column index, padding the
row with empty cells when the sheet row is shorter than the target
column (a spreadsheet cell write always lands). -/
def setPad : List String → Nat → String → List String
  | [], 0, v => [v]
  | [], n + 1, v => "" :: setPad [] n v
  | _ :: t, 0, v => v :: t
  | h :: t, n + 1, v => h :: setPad t n v

/-- Applying a batch of (column index, value) cell writes to one row, as
sheet.update_cells does for the cells built by update_lead. -/
def applyCells (row : List String) (cells : List (Nat × String)) : List String :=
  cells.foldl (fun r cv => setPad r cv.1 cv.2) row

/-- The spreadsheet-backed lead store: header row plus data rows, in
sheet order.  Data row index i corresponds to spreadsheet row i + 2. -/
structure Sheet where
  headers : List String
  rows : List (List String)
  deriving DecidableEq

/-- Python record.get(k): the record dict produced by get_all_records
maps each header to the cell below it (missing cells read as empty). -/
def dictGet (headers row : List String) (k : String) : Option String :=
  (colIndex? headers k).map (fun i => row.getD i "")

/-- Reading one field of the record at a data row index of the sheet. -/
def readField (s : Sheet) (i : Nat) (k : String) : Option String :=
  dictGet s.headers (s.rows.getD i []) k

/-- The batch of cell writes CRMHandler.update_lead builds from an
update mapping: unknown column names resolve to no cell (the logged and
skipped ValueError branch). -/
def cellsOf (headers : List String) (updates : List (String × String)) : List (Nat × String) :=
  updates.filterMap (fun cv => (colIndex? headers cv.1).map (fun ci => (ci, cv.2)))

/-- CRMHandler.update_lead: resolve every field name against the header
row, skip the ones that do not resolve, and write the resolved cells of
the given data row in one batch. -/
def update_lead (s : Sheet) (rowIndex : Nat) (updates : List (String × String)) : Sheet :=
  Sheet.mk s.headers
    (s.rows.set rowIndex (applyCells (s.rows.getD rowIndex []) (cellsOf s.headers updates)))

/-- A task moving through the queues: the data row index of the lead and
the snapshot of its record taken at task creation. -/
structure Lead where
  index : Nat
  data : List String
  deriving DecidableEq

/-- AgentA.check_industry: the lead must not come from a competitor
industry (case-insensitive). -/
def check_industry (headers row : List String) : Bool :=
  !(["competitor", "direct competitor"].contains (strLower ((dictGet headers row "Industry").getD "")))

/-- AgentA.check_company_size: reject test companies (case-insensitive). -/
def check_company_size (headers row : List String) : Bool :=
  (strLower ((dictGet headers row "Company").getD "")) != "test company"

/-- AgentA.check_contact_details: all required contact fields present
and truthy. -/
def check_contact_details (headers row : List String) : Bool :=
  ["Email", "Company", "Contact Number"].all (fun f => pyTruthy (dictGet headers row f))

/-- AgentA.perform_additional_checks: all business-rule checks must
pass. -/
def perform_additional_checks (headers row : List String) : Bool :=
  [check_industry headers row, check_company_size headers row,
    check_contact_details headers row].all id

/-- Where an exception surfaces inside the try block of
AgentA.process_lead: in the first store write, in validation, or in the
final store write. -/
inductive VerifyExc where
  | atMark
  | atValidate
  | atWrite
  deriving DecidableEq

/-- Oracles for one AgentA.process_lead run: the external address
validator verdict, the current timestamp string, and the exception (if
any) raised inside the try block. -/
structure VerifyEnv where
  emailValid : Bool
  now : String
  exc : Option (VerifyExc × String)

/-- The verification status AgentA.process_lead computes for a lead. -/
def verification_status (env : VerifyEnv) (headers row : List String) : String :=
  if env.emailValid && perform_additional_checks headers row then "Y" else "N"

/-- The update mapping written by the except branch of
AgentA.process_lead. -/
def verification_error_updates (msg : String) : List (String × String) :=
  [("Processing Status", "Error"), ("Notes", "Verification failed: " ++ msg)]

/-- AgentA.process_lead: mark Verifying, validate, write back the
verification outcome, and enqueue the lead for outreach when verified;
any exception in the try block is caught and recorded as an Error
status with a note.  Returns the updated sheet and the list of tasks
added to the outreach queue. -/
def process_lead_A (env : VerifyEnv) (lead : Lead) (s : Sheet) : Sheet × List Lead :=
  match env.exc with
  | some (VerifyExc.atMark, msg) =>
      (update_lead s lead.index (verification_error_updates msg), [])
  | some (VerifyExc.atValidate, msg) =>
      let s1 := update_lead s lead.index [("Processing Status", "Verifying")]
      (update_lead s1 lead.index (verification_error_updates msg), [])
  | some (VerifyExc.atWrite, msg) =>
      let s1 := update_lead s lead.index [("Processing Status", "Verifying")]
      (update_lead s1 lead.index (verification_error_updates msg), [])
  | none =>
      let s1 := update_lead s lead.index [("Processing Status", "Verifying")]
      let status := verification_status env s.headers lead.data
      let s2 := update_lead s1 lead.index
        [("Email Verified (Y/N)", status), ("Processing Status", "Verified"),
          ("Verification Date", env.now)]
      (s2, if status = "Y" then [lead] else [])

/-- Where an exception surfaces inside the try block of
AgentB.process_lead. -/
inductive OutreachExc where
  | atMark
  | atSend
  | atWrite
  deriving DecidableEq

/-- Oracles for one AgentB.process_lead run: the current timestamp and
the exception (if any) raised inside the try block.  Send outcomes come
from a separate delivery oracle indexed by a running send counter. -/
structure OutreachEnv where
  now : String
  exc : Option (OutreachExc × String)

/-- The update mapping written by the except branch of
AgentB.process_lead. -/
def outreach_error_updates (msg : String) : List (String × String) :=
  [("Processing Status", "Error"), ("Notes", "Outreach failed: " ++ msg)]

/-- AgentB.process_lead: mark Outreach, attempt delivery; on failure put
the task into the retry queue with attempt count 1, on success write
the Completed status.  Returns the updated sheet, the entries added to
the retry queue, and the next send counter. -/
def process_lead_B (oracle : Nat → Bool) (env : OutreachEnv) (lead : Lead) (k : Nat)
    (s : Sheet) : Sheet × List (Lead × Nat) × Nat :=
  match env.exc with
  | some (OutreachExc.atMark, msg) =>
      (update_lead s lead.index (outreach_error_updates msg), [], k)
  | some (OutreachExc.atSend, msg) =>
      let s1 := update_lead s lead.index [("Processing Status", "Outreach")]
      (update_lead s1 lead.index (outreach_error_updates msg), [], k)
  | some (OutreachExc.atWrite, msg) =>
      let s1 := update_lead s lead.index [("Processing Status", "Outreach")]
      if oracle k then (update_lead s1 lead.index (outreach_error_updates msg), [], k + 1)
      else (s1, [(lead, 1)], k + 1)
  | none =>
      let s1 := update_lead s lead.index [("Processing Status", "Outreach")]
      if oracle k then
        (update_lead s1 lead.index
          [("Processing Status", "Completed"), ("Response Status", "Pending Response"),
            ("Outreach Date", env.now)], [], k + 1)
      else (s1, [(lead, 1)], k + 1)

/-- Remaining send budget of a retry queue: each entry can be sent at
most until its attempt counter reaches 3. -/
def rqMeasure (rq : List (Lead × Nat)) : Nat :=
  (rq.map (fun e => 3 - min e.2 3)).sum

/-- AgentB.process_retry_queue: drain the retry queue, re-attempting
delivery for every entry with fewer than 3 attempts and re-buffering
failures with an incremented counter; entries at 3 attempts are dropped
silently.  Returns the next send counter, the final retry queue
contents, and the log of (lead, attempt counter) send attempts made. -/
def process_retry_queue (oracle : Nat → Bool) (k : Nat) (rq : List (Lead × Nat)) :
    Nat × List (Lead × Nat) × List (Lead × Nat) :=
  match rq with
  | [] => (k, [], [])
  | (l, a) :: rest =>
    if a < 3 then
      if oracle k then
        let r := process_retry_queue oracle (k + 1) rest
        (r.1, r.2.1, (l, a) :: r.2.2)
      else
        let r := process_retry_queue oracle (k + 1) (rest ++ [(l, a + 1)])
        (r.1, r.2.1, (l, a) :: r.2.2)
    else
      process_retry_queue oracle k rest
termination_by 4 * rqMeasure rq + rq.length
decreasing_by
  all_goals simp [rqMeasure, List.map_append, List.sum_append]
  all_goals omega

/-- TaskQueue: the two FIFO channels connecting the workers. -/
structure TaskQueue where
  verification_queue : List Lead
  outreach_queue : List Lead
  deriving DecidableEq

/-- TaskQueue.add_verification_task: append to the verification
channel. -/
def add_verification_task (q : TaskQueue) (lead : Lead) : TaskQueue :=
  TaskQueue.mk (q.verification_queue ++ [lead]) q.outreach_queue

/-- TaskQueue.add_outreach_task: append to the outreach channel. -/
def add_outreach_task (q : TaskQueue) (lead : Lead) : TaskQueue :=
  TaskQueue.mk q.verification_queue (q.outreach_queue ++ [lead])

/-- TaskQueue.get_verification_task: non-blocking poll of the
verification channel, returning None when it is empty. -/
def get_verification_task : TaskQueue → Option Lead × TaskQueue
  | TaskQueue.mk [] oq => (none, TaskQueue.mk [] oq)
  | TaskQueue.mk (t :: ts) oq => (some t, TaskQueue.mk ts oq)

/-- TaskQueue.get_outreach_task: non-blocking poll of the outreach
channel, returning None when it is empty. -/
def get_outreach_task : TaskQueue → Option Lead × TaskQueue
  | TaskQueue.mk vq [] => (none, TaskQueue.mk vq [])
  | TaskQueue.mk vq (t :: ts) => (some t, TaskQueue.mk vq ts)

/-- One operation against the shared TaskQueue. -/
inductive QOp where
  | addVer (lead : Lead)
  | addOut (lead : Lead)
  | getVer
  | getOut

/-- Running a sequence of TaskQueue operations, collecting the tasks
returned by the dequeue calls of each channel in order. -/
def runQueueOps : List QOp → TaskQueue → TaskQueue × List Lead × List Lead
  | [], q => (q, [], [])
  | QOp.addVer l :: ops, q => runQueueOps ops (add_verification_task q l)
  | QOp.addOut l :: ops, q => runQueueOps ops (add_outreach_task q l)
  | QOp.getVer :: ops, q =>
      let p := get_verification_task q
      let r := runQueueOps ops p.2
      (r.1, p.1.toList ++ r.2.1, r.2.2)
  | QOp.getOut :: ops, q =>
      let p := get_outreach_task q
      let r := runQueueOps ops p.2
      (r.1, r.2.1, p.1.toList ++ r.2.2)

/-- The tasks a sequence of operations enqueues on the verification
channel, in order. -/
def enqueuedVer (ops : List QOp) : List Lead :=
  ops.filterMap (fun op => match op with | QOp.addVer l => some l | _ => none)

/-- The tasks a sequence of operations enqueues on the outreach
channel, in order. -/
def enqueuedOut (ops : List QOp) : List Lead :=
  ops.filterMap (fun op => match op with | QOp.addOut l => some l | _ => none)

/-- One iteration of AgentB.start_processing: drain the retry queue,
then poll the outreach channel and process at most one fresh task.
Returns the sheet, the retry queue for the next iteration, the task
queue, and the next send counter. -/
def agentB_iteration (oracle : Nat → Bool) (env : OutreachEnv) (k : Nat)
    (rq : List (Lead × Nat)) (q : TaskQueue) (s : Sheet) :
    Sheet × List (Lead × Nat) × TaskQueue × Nat :=
  let r := process_retry_queue oracle k rq
  match get_outreach_task q with
  | (none, q1) => (s, r.2.1, q1, r.1)
  | (some lead, q1) =>
      let pb := process_lead_B oracle env lead r.1 s
      (pb.1, r.2.1 ++ pb.2.1, q1, pb.2.2)

/-- The aggregate report computed by Supervisor.generate_report. -/
structure Report where
  total_leads : Nat
  verified : Nat
  interested : Nat
  not_interested : Nat
  no_response : Nat
  deriving DecidableEq

/-- The response status Supervisor.generate_report reads for a record:
a missing Response Status column defaults to No Response. -/
def response_status (headers row : List String) : String :=
  (dictGet headers row "Response Status").getD "No Response"

/-- One step of the response-categorisation loop of
Supervisor.generate_report: increment the matching bucket, leave every
other status untallied. -/
def tallyStep (headers : List String) (acc : Nat × Nat × Nat) (row : List String) :
    Nat × Nat × Nat :=
  let status := response_status headers row
  if status = "Interested" then (acc.1 + 1, acc.2.1, acc.2.2)
  else if status = "Not Interested" then (acc.1, acc.2.1 + 1, acc.2.2)
  else if status = "No Response" then (acc.1, acc.2.1, acc.2.2 + 1)
  else acc

/-- Supervisor.generate_report: total lead count, verified count, and
the three response buckets. -/
def generate_report (s : Sheet) : Report :=
  let t := s.rows.foldl (tallyStep s.headers) (0, 0, 0)
  Report.mk s.rows.length
    (s.rows.countP (fun r => dictGet s.headers r "Email Verified (Y/N)" == some "Y"))
    t.1 t.2.1 t.2.2

/-- Python enumerate over the data rows, starting at a given index. -/
def enumRows : Nat → List (List String) → List (Nat × List String)
  | _, [] => []
  | n, r :: rs => (n, r) :: enumRows (n + 1) rs

/-- CRMHandler.get_new_leads: the records whose spreadsheet row
(index + 2) is beyond last_processed_row and whose Processing Status is
unset. -/
def get_new_leads (s : Sheet) (last_processed_row : Nat) : List Lead :=
  (enumRows 0 s.rows).filterMap (fun p =>
    if last_processed_row < p.1 + 2 && !(pyTruthy (dictGet s.headers p.2 "Processing Status")) then
      some (Lead.mk p.1 p.2)
    else none)

/-- Supervisor.monitor_new_leads: enqueue every new lead for
verification, advancing last_processed_row to index + 2 of each lead in
turn; a discovery exception is caught and leaves everything unchanged.
Returns the list of enqueued verification tasks and the new
last_processed_row. -/
def monitor_new_leads (exc : Bool) (s : Sheet) (last_processed_row : Nat) :
    List Lead × Nat :=
  if exc then ([], last_processed_row)
  else
    let leads := get_new_leads s last_processed_row
    (leads, leads.foldl (fun _ l => l.index + 2) last_processed_row)

/-- A sequence of Supervisor.monitor_new_leads calls, each against a
sheet state and an exception flag, accumulating every verification
task ever enqueued and the final last_processed_row. -/
def runDiscovery (steps : List (Bool × Sheet)) (m : Nat) : List Lead × Nat :=
  match steps with
  | [] => ([], m)
  | (e, s) :: rest =>
      let p := monitor_new_leads e s m
      let r := runDiscovery rest p.2
      (p.1 ++ r.1, r.2)

/-- A concrete header row matching the columns the pipeline touches. -/
def demoHeaders : List String :=
  ["Email", "Company", "Industry", "Contact Number", "Processing Status",
    "Email Verified (Y/N)", "Verification Date", "Response Status", "Outreach Date", "Notes"]

/-- A concrete data row for a valid lead. -/
def demoRow : List String :=
  ["alice@realmail.org", "Acme Widgets", "Retail", "555-0100", "", "", "", "", "", ""]

/-- A concrete one-row sheet. -/
def demoSheet : Sheet := Sheet.mk demoHeaders [demoRow]

/-- The task for the single demo lead. -/
def demoLead : Lead := Lead.mk 0 demoRow

/-- A verification environment for an exception-free run with a passing
address validation. -/
def demoEnvA : VerifyEnv := VerifyEnv.mk true "2025-01-01 00:00:00" none

/-- A verification environment in which validation raises. -/
def demoEnvAErr : VerifyEnv :=
  VerifyEnv.mk true "2025-01-01 00:00:00" (some (VerifyExc.atValidate, "boom"))

/-- An outreach environment for an exception-free run. -/
def demoEnvB : OutreachEnv := OutreachEnv.mk "2025-01-02 00:00:00" none

/-- A delivery oracle whose first two sends fail and whose third send
(and every later one) succeeds. -/
def failTwiceOracle : Nat → Bool := fun k => 2 ≤ k

/-- The claim C4 scenario run end to end: AgentB.process_lead on the
demo lead (first send fails), then AgentB.process_retry_queue drains
the retry buffer (second send fails, third succeeds).  Result: the
final sheet, the final retry buffer, and the retry send log. -/
def c4_run : Sheet × List (Lead × Nat) × List (Lead × Nat) :=
  let p := process_lead_B failTwiceOracle demoEnvB demoLead 0 demoSheet
  let r := process_retry_queue failTwiceOracle p.2.2 p.2.1
  (p.1, r.2.1, r.2.2)

/- ------------------------------------------------------------------
Theorems: helper lemmas about the store model.
------------------------------------------------------------------ -/

theorem colIndex?_eq_none_iff (hs : List String) (k : String) :
    colIndex? hs k = none ↔ k ∉ hs := by
  induction hs with
  | nil => simp [colIndex?]
  | cons h t ih =>
    by_cases hk : h = k
    · simp [colIndex?, hk]
    · cases hc : colIndex? t k with
      | none =>
        simp only [colIndex?, if_neg hk, hc, Option.map_none']
        simp only [hc, true_iff] at ih
        constructor
        · intro _
          simp only [List.mem_cons, not_or]
          exact ⟨fun h1 => hk h1.symm, ih⟩
        · intro _; trivial
      | some i =>
        simp only [colIndex?, if_neg hk, hc, Option.map_some']
        constructor
        · intro h1; exact absurd h1 (by simp)
        · intro h1
          exfalso
          have : k ∈ t := by
            by_contra hmem
            rw [← ih] at hmem
            rw [hmem] at hc
            exact Option.noConfusion hc
          exact h1 (List.mem_cons_of_mem _ this)

theorem colIndex?_isSome_of_mem {hs : List String} {k : String} (h : k ∈ hs) :
    (colIndex? hs k).isSome := by
  cases hc : colIndex? hs k with
  | none => exact absurd h ((colIndex?_eq_none_iff hs k).mp hc)
  | some i => rfl

theorem colIndex?_inj {hs : List String} {k1 k2 : String} {i : Nat}
    (h1 : colIndex? hs k1 = some i) (h2 : colIndex? hs k2 = some i) : k1 = k2 := by
  induction hs generalizing i with
  | nil => simp [colIndex?] at h1
  | cons h t ih =>
    by_cases e1 : h = k1 <;> by_cases e2 : h = k2
    · exact e1 ▸ e2 ▸ rfl
    · rw [colIndex?] at h1 h2
      rw [if_pos e1] at h1
      rw [if_neg e2] at h2
      cases h1
      cases hc : colIndex? t k2 with
      | none => rw [hc] at h2; exact Option.noConfusion h2
      | some j => rw [hc] at h2; simp at h2
    · rw [colIndex?] at h1 h2
      rw [if_neg e1] at h1
      rw [if_pos e2] at h2
      cases h2
      cases hc : colIndex? t k1 with
      | none => rw [hc] at h1; exact Option.noConfusion h1
      | some j => rw [hc] at h1; simp at h1
    · rw [colIndex?] at h1 h2
      rw [if_neg e1] at h1
      rw [if_neg e2] at h2
      cases hc1 : colIndex? t k1 with
      | none => rw [hc1] at h1; exact Option.noConfusion h1
      | some j1 =>
        cases hc2 : colIndex? t k2 with
        | none => rw [hc2] at h2; exact Option.noConfusion h2
        | some j2 =>
          rw [hc1] at h1; rw [hc2] at h2
          simp only [Option.map_some', Option.some.injEq] at h1 h2
          have : j1 = j2 := by omega
          exact ih (this ▸ hc1) hc2

theorem setPad_getD_self : ∀ (row : List String) (i : Nat) (v : String),
    (setPad row i v).getD i "" = v := by
  intro row
  induction row with
  | nil =>
    intro i v
    induction i with
    | zero => rfl
    | succ n ih => simpa [setPad] using ih
  | cons h t ih =>
    intro i v
    cases i with
    | zero => rfl
    | succ n => simpa [setPad] using ih n v

theorem setPad_getD_ne : ∀ (row : List String) (i j : Nat) (v : String), j ≠ i →
    (setPad row i v).getD j "" = row.getD j "" := by
  intro row
  induction row with
  | nil =>
    intro i
    induction i with
    | zero =>
      intro j v hj
      cases j with
      | zero => exact absurd rfl hj
      | succ m => simp [setPad]
    | succ n ih =>
      intro j v hj
      cases j with
      | zero => simp [setPad]
      | succ m => simpa [setPad] using ih m v (fun h => hj (by omega))
  | cons h t ih =>
    intro i j v hj
    cases i with
    | zero =>
      cases j with
      | zero => exact absurd rfl hj
      | succ m => simp [setPad]
    | succ n =>
      cases j with
      | zero => simp [setPad]
      | succ m => simpa [setPad] using ih n m v (fun h => hj (by omega))

theorem applyCells_getD_not_mem : ∀ (cells : List (Nat × String)) (row : List String) (i : Nat),
    i ∉ cells.map Prod.fst → (applyCells row cells).getD i "" = row.getD i "" := by
  intro cells
  induction cells with
  | nil => intro row i _; rfl
  | cons c rest ih =>
    intro row i hi
    simp only [List.map_cons, List.mem_cons] at hi
    push_neg at hi
    have h1 : (applyCells (setPad row c.1 c.2) rest).getD i "" = (setPad row c.1 c.2).getD i "" :=
      ih _ i hi.2
    calc (applyCells row (c :: rest)).getD i ""
        = (applyCells (setPad row c.1 c.2) rest).getD i "" := rfl
      _ = (setPad row c.1 c.2).getD i "" := h1
      _ = row.getD i "" := setPad_getD_ne row c.1 i c.2 hi.1

theorem applyCells_getD_mem : ∀ (cells : List (Nat × String)) (row : List String) (i : Nat) (v : String),
    (cells.map Prod.fst).Nodup → (i, v) ∈ cells → (applyCells row cells).getD i "" = v := by
  intro cells
  induction cells with
  | nil => intro row i v _ hm; exact absurd hm (List.not_mem_nil _)
  | cons c rest ih =>
    intro row i v hnd hm
    simp only [List.map_cons, List.nodup_cons] at hnd
    rcases List.mem_cons.mp hm with hc | hc
    · subst hc
      have : i ∉ rest.map Prod.fst := hnd.1
      calc (applyCells row ((i, v) :: rest)).getD i ""
          = (applyCells (setPad row i v) rest).getD i "" := rfl
        _ = (setPad row i v).getD i "" := applyCells_getD_not_mem rest _ i this
        _ = v := setPad_getD_self row i v
    · exact ih (setPad row c.1 c.2) i v hnd.2 hc

theorem getD_set_self {α : Type} (d : α) : ∀ (l : List α) (i : Nat) (x : α),
    i < l.length → (l.set i x).getD i d = x := by
  intro l
  induction l with
  | nil => intro i x h; simp at h
  | cons a t ih =>
    intro i x h
    cases i with
    | zero => rfl
    | succ n =>
      simp only [List.set_cons_succ, List.getD_cons_succ]
      exact ih n x (by simpa using h)

theorem getD_set_ne {α : Type} (d : α) : ∀ (l : List α) (i j : Nat) (x : α), j ≠ i →
    (l.set i x).getD j d = l.getD j d := by
  intro l
  induction l with
  | nil => intro i j x _; simp [List.set]
  | cons a t ih =>
    intro i j x hj
    cases i with
    | zero =>
      cases j with
      | zero => exact absurd rfl hj
      | succ m => simp
    | succ n =>
      cases j with
      | zero => simp
      | succ m =>
        simp only [List.set_cons_succ, List.getD_cons_succ]
        exact ih n m x (fun h => hj (by omega))

theorem set_getD_self {α : Type} (d : α) : ∀ (l : List α) (i : Nat),
    l.set i (l.getD i d) = l := by
  intro l
  induction l with
  | nil => intro i; rfl
  | cons a t ih =>
    intro i
    cases i with
    | zero => rfl
    | succ n => simp only [List.getD_cons_succ, List.set_cons_succ, ih n]

theorem set_oob {α : Type} : ∀ (l : List α) (i : Nat) (x : α),
    l.length ≤ i → l.set i x = l := by
  intro l
  induction l with
  | nil => intro i x _; rfl
  | cons a t ih =>
    intro i x h
    cases i with
    | zero => simp at h
    | succ n => simp only [List.set_cons_succ]; rw [ih n x (by simpa using h)]

theorem update_lead_headers (s : Sheet) (r : Nat) (u : List (String × String)) :
    (update_lead s r u).headers = s.headers := rfl

theorem update_lead_rows_length (s : Sheet) (r : Nat) (u : List (String × String)) :
    (update_lead s r u).rows.length = s.rows.length := by
  simp [update_lead]

theorem readField_update_lead_other_row (s : Sheet) (r : Nat) (u : List (String × String))
    (i : Nat) (k : String) (h : i ≠ r) :
    readField (update_lead s r u) i k = readField s i k := by
  unfold readField update_lead dictGet
  simp only
  rw [getD_set_ne [] s.rows r i _ h]

theorem mem_cellsOf {headers : List String} {u : List (String × String)} {c : Nat × String}
    (h : c ∈ cellsOf headers u) :
    ∃ k1, (k1, c.2) ∈ u ∧ colIndex? headers k1 = some c.1 := by
  unfold cellsOf at h
  rcases List.mem_filterMap.mp h with ⟨cv, hcv, heq⟩
  cases hc : colIndex? headers cv.1 with
  | none => rw [hc] at heq; exact Option.noConfusion heq
  | some i =>
    rw [hc] at heq
    simp only [Option.map_some', Option.some.injEq] at heq
    refine ⟨cv.1, ?_, ?_⟩
    · have : c.2 = cv.2 := by rw [← heq]
      rw [this]; exact hcv
    · rw [hc, ← heq]

theorem cellsOf_fst_nodup {headers : List String} {u : List (String × String)}
    (h : (u.map Prod.fst).Nodup) : ((cellsOf headers u).map Prod.fst).Nodup := by
  induction u with
  | nil => simp [cellsOf]
  | cons cv rest ih =>
    simp only [List.map_cons, List.nodup_cons] at h
    cases hc : colIndex? headers cv.1 with
    | none =>
      have : cellsOf headers (cv :: rest) = cellsOf headers rest := by
        unfold cellsOf
        simp [List.filterMap_cons, hc]
      rw [this]
      exact ih h.2
    | some i =>
      have : cellsOf headers (cv :: rest) = (i, cv.2) :: cellsOf headers rest := by
        unfold cellsOf
        simp [List.filterMap_cons, hc]
      rw [this]
      simp only [List.map_cons, List.nodup_cons]
      constructor
      · intro hmem
        rcases List.mem_map.mp hmem with ⟨c, hcmem, hfst⟩
        rcases mem_cellsOf hcmem with ⟨k1, hk1, hck1⟩
        rw [hfst] at hck1
        have hke : k1 = cv.1 := colIndex?_inj hck1 hc
        exact h.1 (List.mem_map.mpr ⟨(k1, c.2), hk1, hke⟩)
      · exact ih h.2

theorem readField_update_lead_skip (s : Sheet) (r : Nat) (u : List (String × String))
    (k : String) (hk : k ∉ u.map Prod.fst) :
    readField (update_lead s r u) r k = readField s r k := by
  unfold readField update_lead dictGet
  simp only
  by_cases hr : r < s.rows.length
  · rw [getD_set_self [] s.rows r _ hr]
    cases hc : colIndex? s.headers k with
    | none => simp
    | some i =>
      simp only [Option.map_some', Option.some.injEq]
      have : i ∉ (cellsOf s.headers u).map Prod.fst := by
        intro hmem
        rcases List.mem_map.mp hmem with ⟨c, hcmem, hfst⟩
        rcases mem_cellsOf hcmem with ⟨k1, hk1, hck1⟩
        rw [hfst] at hck1
        have hke : k1 = k := colIndex?_inj hck1 hc
        exact hk (List.mem_map.mpr ⟨(k1, c.2), hk1, hke⟩)
      rw [applyCells_getD_not_mem _ _ i this]
  · rw [set_oob s.rows r _ (by omega)]

theorem readField_update_lead_mem (s : Sheet) (r : Nat) (u : List (String × String))
    (k : String) (v : String) (hr : r < s.rows.length) (hk : k ∈ s.headers)
    (hnd : (u.map Prod.fst).Nodup) (hm : (k, v) ∈ u) :
    readField (update_lead s r u) r k = some v := by
  unfold readField update_lead dictGet
  simp only
  rw [getD_set_self [] s.rows r _ hr]
  cases hc : colIndex? s.headers k with
  | none => exact absurd hk ((colIndex?_eq_none_iff s.headers k).mp hc)
  | some i =>
    simp only [Option.map_some', Option.some.injEq]
    have hcell : (i, v) ∈ cellsOf s.headers u := by
      unfold cellsOf
      refine List.mem_filterMap.mpr ⟨(k, v), hm, ?_⟩
      simp [hc]
    exact applyCells_getD_mem _ _ i v (cellsOf_fst_nodup hnd) hcell

/- ------------------------------------------------------------------
Theorems: the verification worker (AgentA).
------------------------------------------------------------------ -/

theorem pyTruthy_iff (o : Option String) : pyTruthy o = true ↔ o.getD "" ≠ "" := by
  cases o with
  | none => simp [pyTruthy]
  | some s => simp [pyTruthy]

theorem perform_additional_checks_iff (headers row : List String) :
    perform_additional_checks headers row = true ↔
      ((strLower ((dictGet headers row "Industry").getD "")) ∉
          (["competitor", "direct competitor"] : List String) ∧
        (strLower ((dictGet headers row "Company").getD "")) ≠ "test company" ∧
        (dictGet headers row "Email").getD "" ≠ "" ∧
        (dictGet headers row "Company").getD "" ≠ "" ∧
        (dictGet headers row "Contact Number").getD "" ≠ "") := by
  simp [perform_additional_checks, check_industry, check_company_size, check_contact_details,
    pyTruthy_iff, and_assoc]

theorem verification_status_eq_Y_iff (env : VerifyEnv) (headers row : List String) :
    verification_status env headers row = "Y" ↔
      (env.emailValid = true ∧ perform_additional_checks headers row = true) := by
  cases he : env.emailValid <;> cases hp : perform_additional_checks headers row <;>
    simp [verification_status, he, hp]

theorem verification_status_cases (env : VerifyEnv) (headers row : List String) :
    verification_status env headers row = "Y" ∨ verification_status env headers row = "N" := by
  unfold verification_status
  by_cases h : env.emailValid && perform_additional_checks headers row
  · left; rw [if_pos h]
  · right; rw [if_neg h]

/-- C1: on an exception-free run of AgentA.process_lead, the store row
ends with Email Verified (Y/N) equal to Y exactly when the external
address validation passed, the Industry field (lower-cased) is not
competitor or direct competitor, the Company field (lower-cased) is not
test company, and the Email, Company and Contact Number fields are all
non-empty; otherwise it ends as N.  In both cases Processing Status is
set to Verified and Verification Date is set to the run timestamp. -/
theorem C1_verification_writeback (env : VerifyEnv) (lead : Lead) (s : Sheet)
    (hexc : env.exc = none) (hr : lead.index < s.rows.length)
    (h1 : "Email Verified (Y/N)" ∈ s.headers) (h2 : "Processing Status" ∈ s.headers)
    (h3 : "Verification Date" ∈ s.headers) :
    (readField (process_lead_A env lead s).1 lead.index "Email Verified (Y/N)" = some "Y" ↔
      (env.emailValid = true ∧
        (strLower ((dictGet s.headers lead.data "Industry").getD "")) ∉
          (["competitor", "direct competitor"] : List String) ∧
        (strLower ((dictGet s.headers lead.data "Company").getD "")) ≠ "test company" ∧
        (dictGet s.headers lead.data "Email").getD "" ≠ "" ∧
        (dictGet s.headers lead.data "Company").getD "" ≠ "" ∧
        (dictGet s.headers lead.data "Contact Number").getD "" ≠ "")) ∧
    (readField (process_lead_A env lead s).1 lead.index "Email Verified (Y/N)" = some "Y" ∨
      readField (process_lead_A env lead s).1 lead.index "Email Verified (Y/N)" = some "N") ∧
    readField (process_lead_A env lead s).1 lead.index "Processing Status" = some "Verified" ∧
    readField (process_lead_A env lead s).1 lead.index "Verification Date" = some env.now := by
  have hsheet : (process_lead_A env lead s).1 =
      update_lead (update_lead s lead.index [("Processing Status", "Verifying")]) lead.index
        [("Email Verified (Y/N)", verification_status env s.headers lead.data),
          ("Processing Status", "Verified"), ("Verification Date", env.now)] := by
    simp only [process_lead_A, hexc]
  rw [hsheet]
  have hlen : lead.index <
      (update_lead s lead.index [("Processing Status", "Verifying")]).rows.length := by
    rw [update_lead_rows_length]; exact hr
  have hnd : (([("Email Verified (Y/N)", verification_status env s.headers lead.data),
      ("Processing Status", "Verified"),
      ("Verification Date", env.now)] : List (String × String)).map Prod.fst).Nodup := by
    simp only [List.map_cons, List.map_nil]
    decide
  have hEV : readField (update_lead (update_lead s lead.index
        [("Processing Status", "Verifying")]) lead.index
        [("Email Verified (Y/N)", verification_status env s.headers lead.data),
          ("Processing Status", "Verified"), ("Verification Date", env.now)])
      lead.index "Email Verified (Y/N)" =
      some (verification_status env s.headers lead.data) :=
    readField_update_lead_mem _ _ _ _ _ hlen h1 hnd (by simp)
  have hPS : readField (update_lead (update_lead s lead.index
        [("Processing Status", "Verifying")]) lead.index
        [("Email Verified (Y/N)", verification_status env s.headers lead.data),
          ("Processing Status", "Verified"), ("Verification Date", env.now)])
      lead.index "Processing Status" = some "Verified" :=
    readField_update_lead_mem _ _ _ _ _ hlen h2 hnd (by simp)
  have hVD : readField (update_lead (update_lead s lead.index
        [("Processing Status", "Verifying")]) lead.index
        [("Email Verified (Y/N)", verification_status env s.headers lead.data),
          ("Processing Status", "Verified"), ("Verification Date", env.now)])
      lead.index "Verification Date" = some env.now :=
    readField_update_lead_mem _ _ _ _ _ hlen h3 hnd (by simp)
  refine ⟨?_, ?_, hPS, hVD⟩
  · rw [hEV]
    rw [Option.some_inj]
    rw [verification_status_eq_Y_iff, perform_additional_checks_iff]
  · rw [hEV]
    rcases verification_status_cases env s.headers lead.data with h | h
    · left; rw [h]
    · right; rw [h]

/-- C1 witness: the verified demo lead is written back as Verified. -/
theorem C1_witness :
    readField (process_lead_A demoEnvA demoLead demoSheet).1 demoLead.index
      "Processing Status" = some "Verified" :=
  (C1_verification_writeback demoEnvA demoLead demoSheet rfl (by decide) (by decide)
    (by decide) (by decide)).2.2.1

/-- C2: AgentA.process_lead adds the lead to the outreach channel
exactly when the run raises no exception and the computed verification
status is Y; in particular a lead verified with status N creates no
outreach task. -/
theorem C2_outreach_enqueue_iff (env : VerifyEnv) (lead : Lead) (s : Sheet) :
    (process_lead_A env lead s).2 =
      if env.exc = none ∧ verification_status env s.headers lead.data = "Y" then [lead]
      else [] := by
  cases hexc : env.exc with
  | none =>
    by_cases h : verification_status env s.headers lead.data = "Y"
    · simp [process_lead_A, hexc, h]
    · simp [process_lead_A, hexc, h]
  | some pm =>
    rcases pm with ⟨pos, msg⟩
    cases pos <;> simp [process_lead_A, hexc]

/-- C5: any exception raised inside the try block of
AgentA.process_lead is caught; the lead row is written with Processing
Status Error and a note of the form Verification failed: cause, and the
lead is not enqueued for outreach. -/
theorem C5_verification_exception (env : VerifyEnv) (lead : Lead) (s : Sheet)
    (pos : VerifyExc) (msg : String) (hexc : env.exc = some (pos, msg))
    (hr : lead.index < s.rows.length)
    (h1 : "Processing Status" ∈ s.headers) (h2 : "Notes" ∈ s.headers) :
    readField (process_lead_A env lead s).1 lead.index "Processing Status" = some "Error" ∧
    readField (process_lead_A env lead s).1 lead.index "Notes" =
      some ("Verification failed: " ++ msg) ∧
    (process_lead_A env lead s).2 = [] := by
  have hnd : ((verification_error_updates msg).map Prod.fst).Nodup := by
    simp only [verification_error_updates, List.map_cons, List.map_nil]
    decide
  have hmPS : ("Processing Status", "Error") ∈ verification_error_updates msg := by
    simp [verification_error_updates]
  have hmN : ("Notes", "Verification failed: " ++ msg) ∈ verification_error_updates msg := by
    simp [verification_error_updates]
  cases pos with
  | atMark =>
    have hsheet : (process_lead_A env lead s).1 =
        update_lead s lead.index (verification_error_updates msg) := by
      simp only [process_lead_A, hexc]
    have hout : (process_lead_A env lead s).2 = [] := by
      simp only [process_lead_A, hexc]
    rw [hsheet, hout]
    exact ⟨readField_update_lead_mem _ _ _ _ _ hr h1 hnd hmPS,
      readField_update_lead_mem _ _ _ _ _ hr h2 hnd hmN, rfl⟩
  | atValidate =>
    have hsheet : (process_lead_A env lead s).1 =
        update_lead (update_lead s lead.index [("Processing Status", "Verifying")]) lead.index
          (verification_error_updates msg) := by
      simp only [process_lead_A, hexc]
    have hout : (process_lead_A env lead s).2 = [] := by
      simp only [process_lead_A, hexc]
    have hlen : lead.index <
        (update_lead s lead.index [("Processing Status", "Verifying")]).rows.length := by
      rw [update_lead_rows_length]; exact hr
    rw [hsheet, hout]
    exact ⟨readField_update_lead_mem _ _ _ _ _ hlen h1 hnd hmPS,
      readField_update_lead_mem _ _ _ _ _ hlen h2 hnd hmN, rfl⟩
  | atWrite =>
    have hsheet : (process_lead_A env lead s).1 =
        update_lead (update_lead s lead.index [("Processing Status", "Verifying")]) lead.index
          (verification_error_updates msg) := by
      simp only [process_lead_A, hexc]
    have hout : (process_lead_A env lead s).2 = [] := by
      simp only [process_lead_A, hexc]
    have hlen : lead.index <
        (update_lead s lead.index [("Processing Status", "Verifying")]).rows.length := by
      rw [update_lead_rows_length]; exact hr
    rw [hsheet, hout]
    exact ⟨readField_update_lead_mem _ _ _ _ _ hlen h1 hnd hmPS,
      readField_update_lead_mem _ _ _ _ _ hlen h2 hnd hmN, rfl⟩

/-- C5 witness: a validation exception on the demo lead leaves the row
in Error state. -/
theorem C5_witness :
    readField (process_lead_A demoEnvAErr demoLead demoSheet).1 demoLead.index
      "Processing Status" = some "Error" :=
  (C5_verification_exception demoEnvAErr demoLead demoSheet VerifyExc.atValidate "boom" rfl
    (by decide) (by decide) (by decide)).1

/- ------------------------------------------------------------------
Theorems: the outreach worker retry queue (AgentB).
------------------------------------------------------------------ -/

theorem rqMeasure_nil : rqMeasure [] = 0 := rfl

theorem rqMeasure_cons (e : Lead × Nat) (rest : List (Lead × Nat)) :
    rqMeasure (e :: rest) = (3 - min e.2 3) + rqMeasure rest := by
  simp [rqMeasure]

theorem rqMeasure_append (a b : List (Lead × Nat)) :
    rqMeasure (a ++ b) = rqMeasure a + rqMeasure b := by
  simp [rqMeasure]

theorem prq_rq_empty (oracle : Nat → Bool) : ∀ (k : Nat) (rq : List (Lead × Nat)),
    (process_retry_queue oracle k rq).2.1 = [] := by
  intro k rq
  induction k, rq using process_retry_queue.induct oracle with
  | case1 k => simp [process_retry_queue]
  | case2 k l a rest h ho ih => simp [process_retry_queue, h, ho, ih]
  | case3 k l a rest h ho ih => simp [process_retry_queue, h, ho, ih]
  | case4 k l a rest h ih => simp [process_retry_queue, h, ih]

theorem prq_log_filter_le (p : Lead → Bool) (oracle : Nat → Bool) :
    ∀ (k : Nat) (rq : List (Lead × Nat)),
      (((process_retry_queue oracle k rq).2.2).filter (fun e => p e.1)).length ≤
        rqMeasure (rq.filter (fun e => p e.1)) := by
  intro k rq
  induction k, rq using process_retry_queue.induct oracle with
  | case1 k => simp [process_retry_queue, rqMeasure]
  | case2 k l a rest h ho ih =>
    have hunfold : process_retry_queue oracle k ((l, a) :: rest) =
        ((process_retry_queue oracle (k + 1) rest).1,
          (process_retry_queue oracle (k + 1) rest).2.1,
          (l, a) :: (process_retry_queue oracle (k + 1) rest).2.2) := by
      simp [process_retry_queue, h, ho]
    rw [hunfold]
    cases hp : p l with
    | true =>
      simp only [List.filter_cons, hp, if_true, List.length_cons, rqMeasure_cons]
      have hmin : min a 3 = a := Nat.min_eq_left (by omega)
      rw [hmin]
      omega
    | false =>
      simp only [List.filter_cons, hp]
      simpa using ih
  | case3 k l a rest h ho ih =>
    have hunfold : process_retry_queue oracle k ((l, a) :: rest) =
        ((process_retry_queue oracle (k + 1) (rest ++ [(l, a + 1)])).1,
          (process_retry_queue oracle (k + 1) (rest ++ [(l, a + 1)])).2.1,
          (l, a) :: (process_retry_queue oracle (k + 1) (rest ++ [(l, a + 1)])).2.2) := by
      simp [process_retry_queue, h, ho]
    rw [hunfold]
    rw [List.filter_append, rqMeasure_append] at ih
    have hmin : min a 3 = a := Nat.min_eq_left (by omega)
    have hmin1 : min (a + 1) 3 = a + 1 := Nat.min_eq_left (by omega)
    cases hp : p l with
    | true =>
      simp [List.filter_cons, hp, rqMeasure_cons, rqMeasure_nil, hmin, hmin1] at ih ⊢
      omega
    | false =>
      simp [List.filter_cons, hp, rqMeasure_nil] at ih ⊢
      omega
  | case4 k l a rest h ih =>
    have hunfold : process_retry_queue oracle k ((l, a) :: rest) =
        process_retry_queue oracle k rest := by
      simp [process_retry_queue, h]
    rw [hunfold]
    cases hp : p l with
    | true =>
      simp only [List.filter_cons, hp, if_true, rqMeasure_cons]
      have hmin : min a 3 = 3 := Nat.min_eq_right (by omega)
      rw [hmin]
      simpa using ih
    | false =>
      simp only [List.filter_cons, hp]
      exact ih

/-- C3: retry delivery attempts are bounded.  For every predicate on
leads, the send attempts AgentB.process_retry_queue makes for matching
entries never exceed the remaining budget 3 - attempts of those
entries; in particular an entry entering retry as (lead, 1) after the
failed initial send gets at most 2 further attempts, for at most 3
delivery attempts in total; an entry whose attempt counter is 3 is
dropped without a send; and an AgentB iteration whose retry buffer
holds only such an entry (with no fresh outreach task) removes it while
leaving the sheet untouched. -/
theorem C3_retry_attempt_bound :
    (∀ (p : Lead → Bool) (oracle : Nat → Bool) (k : Nat) (rq : List (Lead × Nat)),
      (((process_retry_queue oracle k rq).2.2).filter (fun e => p e.1)).length ≤
        rqMeasure (rq.filter (fun e => p e.1))) ∧
    (∀ (oracle : Nat → Bool) (k : Nat) (l : Lead),
      ((process_retry_queue oracle k [(l, 1)]).2.2).length ≤ 2) ∧
    (∀ (oracle : Nat → Bool) (k : Nat) (l : Lead),
      process_retry_queue oracle k [(l, 3)] = (k, [], [])) ∧
    (∀ (oracle : Nat → Bool) (env : OutreachEnv) (k : Nat) (l : Lead) (vq : List Lead)
      (s : Sheet),
      agentB_iteration oracle env k [(l, 3)] (TaskQueue.mk vq []) s =
        (s, [], TaskQueue.mk vq [], k)) := by
  have hdrop : ∀ (oracle : Nat → Bool) (k : Nat) (l : Lead),
      process_retry_queue oracle k [(l, 3)] = (k, [], []) := by
    intro oracle k l
    simp [process_retry_queue]
  refine ⟨prq_log_filter_le, ?_, hdrop, ?_⟩
  · intro oracle k l
    have h := prq_log_filter_le (fun _ => true) oracle k [(l, 1)]
    simpa [List.filter_true, rqMeasure] using h
  · intro oracle env k l vq s
    simp [agentB_iteration, get_outreach_task, hdrop]

/-- C10: AgentB.process_retry_queue always returns with an empty retry
buffer, re-processing re-buffered entries in the same invocation; a
lead whose sends keep failing therefore consumes its remaining retry
attempts (attempt counters 1 and 2) in a single call. -/
theorem C10_retry_drained_in_one_call :
    (∀ (oracle : Nat → Bool) (k : Nat) (rq : List (Lead × Nat)),
      (process_retry_queue oracle k rq).2.1 = []) ∧
    (∀ (k : Nat) (l : Lead),
      process_retry_queue (fun _ => false) k [(l, 1)] =
        (k + 2, [], [(l, 1), (l, 2)])) := by
  refine ⟨fun oracle => prq_rq_empty oracle, ?_⟩
  intro k l
  simp [process_retry_queue]

/-- C4 counterexample: in the exact scenario of the claim (valid lead,
two failed sends, success on the third attempt) the final store row
still reads Processing Status Outreach, not Completed, and Response
Status is still empty: the retry path performs no store write on
success.  The retry buffer ends empty after send attempts at counters 1
and 2. -/
theorem C4_counterexample :
    readField c4_run.1 demoLead.index "Processing Status" = some "Outreach" ∧
    ¬ readField c4_run.1 demoLead.index "Processing Status" = some "Completed" ∧
    readField c4_run.1 demoLead.index "Response Status" = some "" ∧
    c4_run.2.1 = [] ∧
    c4_run.2.2 = [(demoLead, 1), (demoLead, 2)] := by
  refine ⟨by decide, by decide, by decide, ?_, ?_⟩
  · simp [c4_run, process_lead_B, demoEnvB, failTwiceOracle, process_retry_queue]
  · simp [c4_run, process_lead_B, demoEnvB, failTwiceOracle, process_retry_queue]

/-- C4 amended: for a lead whose delivery fails on the first two send
attempts and succeeds on the third, AgentB leaves the store row at
Processing Status Outreach (no Completed status and no Response Status
write, since the retry path never updates the store), and the retry
buffer ends empty after the third attempt succeeds. -/
theorem C4_retry_success_no_writeback (oracle : Nat → Bool) (env : OutreachEnv)
    (lead : Lead) (k : Nat) (s : Sheet)
    (hexc : env.exc = none) (h0 : oracle k = false) (h1 : oracle (k + 1) = false)
    (h2 : oracle (k + 1 + 1) = true)
    (hr : lead.index < s.rows.length) (hps : "Processing Status" ∈ s.headers) :
    process_lead_B oracle env lead k s =
      (update_lead s lead.index [("Processing Status", "Outreach")], [(lead, 1)], k + 1) ∧
    process_retry_queue oracle (k + 1) [(lead, 1)] =
      (k + 1 + 1 + 1, [], [(lead, 1), (lead, 2)]) ∧
    readField (process_lead_B oracle env lead k s).1 lead.index "Processing Status" =
      some "Outreach" := by
  have hp : process_lead_B oracle env lead k s =
      (update_lead s lead.index [("Processing Status", "Outreach")], [(lead, 1)], k + 1) := by
    simp [process_lead_B, hexc, h0]
  refine ⟨hp, ?_, ?_⟩
  · simp [process_retry_queue, h1, h2]
  · rw [hp]
    exact readField_update_lead_mem _ _ _ _ _ hr hps (by decide) (by simp)

/-- C4 amended witness: the demo scenario ends at Outreach. -/
theorem C4_witness :
    readField (process_lead_B failTwiceOracle demoEnvB demoLead 0 demoSheet).1
      demoLead.index "Processing Status" = some "Outreach" :=
  (C4_retry_success_no_writeback failTwiceOracle demoEnvB demoLead 0 demoSheet rfl
    (by decide) (by decide) (by decide) (by decide) (by decide)).2.2

/- ------------------------------------------------------------------
Theorems: the Supervisor report (generate_report).
------------------------------------------------------------------ -/

theorem tally_foldl (headers : List String) : ∀ (rows : List (List String)) (acc : Nat × Nat × Nat),
    rows.foldl (tallyStep headers) acc =
      (acc.1 + rows.countP (fun r => response_status headers r == "Interested"),
        acc.2.1 + rows.countP (fun r => response_status headers r == "Not Interested"),
        acc.2.2 + rows.countP (fun r => response_status headers r == "No Response")) := by
  intro rows
  induction rows with
  | nil => intro acc; simp
  | cons r rest ih =>
    intro acc
    rw [List.foldl_cons, ih]
    by_cases h1 : response_status headers r = "Interested"
    · simp [tallyStep, List.countP_cons, h1]
      omega
    · by_cases h2 : response_status headers r = "Not Interested"
      · simp [tallyStep, List.countP_cons, h1, h2]
        omega
      · by_cases h3 : response_status headers r = "No Response"
        · simp [tallyStep, List.countP_cons, h1, h2, h3]
          omega
        · simp [tallyStep, List.countP_cons, h1, h2, h3]

theorem tallyStep_sum_le (headers : List String) (acc : Nat × Nat × Nat) (r : List String) :
    (tallyStep headers acc r).1 + (tallyStep headers acc r).2.1 + (tallyStep headers acc r).2.2 ≤
      acc.1 + acc.2.1 + acc.2.2 + 1 := by
  simp only [tallyStep]
  split_ifs <;> simp <;> omega

theorem tally_sum_le (headers : List String) : ∀ (rows : List (List String)) (acc : Nat × Nat × Nat),
    (rows.foldl (tallyStep headers) acc).1 + (rows.foldl (tallyStep headers) acc).2.1 +
      (rows.foldl (tallyStep headers) acc).2.2 ≤
      acc.1 + acc.2.1 + acc.2.2 + rows.length := by
  intro rows
  induction rows with
  | nil => intro acc; simp
  | cons r rest ih =>
    intro acc
    rw [List.foldl_cons]
    have h1 := ih (tallyStep headers acc r)
    have h2 := tallyStep_sum_le headers acc r
    simp only [List.length_cons]
    omega

/-- C6: Supervisor.generate_report counts every record in total_leads,
counts exactly the records with Email Verified (Y/N) equal to Y in
verified, tallies exactly the three enumerated response categories
(each bucket counts exactly the records with that response status, so
any other status is silently excluded from the response tally), and the
three buckets sum to at most total_leads. -/
theorem C6_report_tally (s : Sheet) :
    (generate_report s).total_leads = s.rows.length ∧
    (generate_report s).verified =
      s.rows.countP (fun r => dictGet s.headers r "Email Verified (Y/N)" == some "Y") ∧
    (generate_report s).interested =
      s.rows.countP (fun r => response_status s.headers r == "Interested") ∧
    (generate_report s).not_interested =
      s.rows.countP (fun r => response_status s.headers r == "Not Interested") ∧
    (generate_report s).no_response =
      s.rows.countP (fun r => response_status s.headers r == "No Response") ∧
    (generate_report s).interested + (generate_report s).not_interested +
      (generate_report s).no_response ≤ (generate_report s).total_leads := by
  have ht := tally_foldl s.headers s.rows (0, 0, 0)
  have hi : (generate_report s).interested =
      s.rows.countP (fun r => response_status s.headers r == "Interested") := by
    have h0 : (generate_report s).interested =
        (s.rows.foldl (tallyStep s.headers) (0, 0, 0)).1 := rfl
    rw [h0, ht]
    exact Nat.zero_add _
  have hni : (generate_report s).not_interested =
      s.rows.countP (fun r => response_status s.headers r == "Not Interested") := by
    have h0 : (generate_report s).not_interested =
        (s.rows.foldl (tallyStep s.headers) (0, 0, 0)).2.1 := rfl
    rw [h0, ht]
    exact Nat.zero_add _
  have hnr : (generate_report s).no_response =
      s.rows.countP (fun r => response_status s.headers r == "No Response") := by
    have h0 : (generate_report s).no_response =
        (s.rows.foldl (tallyStep s.headers) (0, 0, 0)).2.2 := rfl
    rw [h0, ht]
    exact Nat.zero_add _
  have hsum := tally_sum_le s.headers s.rows (0, 0, 0)
  rw [ht] at hsum
  simp only [Nat.zero_add] at hsum
  refine ⟨rfl, rfl, hi, hni, hnr, ?_⟩
  rw [hi, hni, hnr]
  have htot : (generate_report s).total_leads = s.rows.length := rfl
  rw [htot]
  simpa using hsum

/- ------------------------------------------------------------------
Theorems: Supervisor lead discovery (the high-water mark).
------------------------------------------------------------------ -/

theorem mem_enumRows_ge (rs : List (List String)) : ∀ (n : Nat) (x : Nat × List String),
    x ∈ enumRows n rs → n ≤ x.1 := by
  induction rs with
  | nil => intro n x h; simp [enumRows] at h
  | cons r rest ih =>
    intro n x h
    rw [enumRows] at h
    rcases List.mem_cons.mp h with h | h
    · rw [h]
    · have := ih (n + 1) x h
      omega

theorem filterMap_enumRows_pairwise (g : Nat × List String → Option Lead)
    (hg : ∀ p l, g p = some l → l.index = p.1) (rs : List (List String)) : ∀ (n : Nat),
    ((enumRows n rs).filterMap g).Pairwise (fun a b => a.index < b.index) := by
  induction rs with
  | nil => intro n; simp [enumRows]
  | cons r rest ih =>
    intro n
    rw [enumRows, List.filterMap_cons]
    cases hgr : g (n, r) with
    | none => exact ih (n + 1)
    | some l =>
      refine List.Pairwise.cons ?_ (ih (n + 1))
      intro y hy
      rcases List.mem_filterMap.mp hy with ⟨p, hp, hgp⟩
      have h1 : y.index = p.1 := hg p y hgp
      have h2 : n + 1 ≤ p.1 := mem_enumRows_ge rest (n + 1) p hp
      have h3 : l.index = (n, r).1 := hg (n, r) l hgr
      simp only at h3
      omega

theorem get_new_leads_index (s : Sheet) (m : Nat) :
    ∀ l ∈ get_new_leads s m, m < l.index + 2 := by
  intro l hl
  unfold get_new_leads at hl
  rcases List.mem_filterMap.mp hl with ⟨p, _, hgp⟩
  by_cases hc : (decide (m < p.1 + 2) && !(pyTruthy (dictGet s.headers p.2 "Processing Status"))) = true
  · rw [if_pos hc] at hgp
    have hidx : l.index = p.1 := by
      have : Lead.mk p.1 p.2 = l := Option.some.inj hgp
      rw [← this]
    simp only [Bool.and_eq_true, decide_eq_true_eq] at hc
    have := hc.1
    omega
  · rw [if_neg hc] at hgp
    exact Option.noConfusion hgp

theorem get_new_leads_pairwise (s : Sheet) (m : Nat) :
    (get_new_leads s m).Pairwise (fun a b => a.index < b.index) := by
  unfold get_new_leads
  refine filterMap_enumRows_pairwise _ ?_ s.rows 0
  intro p l hgp
  by_cases hc : (decide (m < p.1 + 2) && !(pyTruthy (dictGet s.headers p.2 "Processing Status"))) = true
  · rw [if_pos hc] at hgp
    have : Lead.mk p.1 p.2 = l := Option.some.inj hgp
    rw [← this]
  · rw [if_neg hc] at hgp
    exact Option.noConfusion hgp

theorem fold_mark_spec : ∀ (leads : List Lead) (m : Nat),
    leads.Pairwise (fun a b => a.index < b.index) →
    (∀ l ∈ leads, m < l.index + 2) →
    m ≤ leads.foldl (fun _ l => l.index + 2) m ∧
    ∀ l ∈ leads, l.index + 2 ≤ leads.foldl (fun _ l => l.index + 2) m := by
  intro leads
  induction leads with
  | nil => intro m _ _; exact ⟨Nat.le_refl m, by simp⟩
  | cons x xs ih =>
    intro m hpw hgt
    rw [List.foldl_cons]
    have hpw1 := List.pairwise_cons.mp hpw
    have ih1 := ih (x.index + 2) hpw1.2 (fun l hl => by have := hpw1.1 l hl; omega)
    have hx := hgt x (List.mem_cons_self x xs)
    refine ⟨Nat.le_trans (Nat.le_of_lt hx) ih1.1, ?_⟩
    intro l hl
    rcases List.mem_cons.mp hl with h | h
    · rw [h]; exact ih1.1
    · exact ih1.2 l h

theorem monitor_new_leads_spec (exc : Bool) (s : Sheet) (m : Nat) :
    m ≤ (monitor_new_leads exc s m).2 ∧
    (∀ l ∈ (monitor_new_leads exc s m).1,
      m < l.index + 2 ∧ l.index + 2 ≤ (monitor_new_leads exc s m).2) ∧
    ((monitor_new_leads exc s m).1).Pairwise (fun a b => a.index < b.index) := by
  cases exc with
  | true => exact ⟨Nat.le_refl m, by simp [monitor_new_leads], by simp [monitor_new_leads]⟩
  | false =>
    have hidx := get_new_leads_index s m
    have hpw := get_new_leads_pairwise s m
    have hfold := fold_mark_spec (get_new_leads s m) m hpw hidx
    refine ⟨hfold.1, ?_, ?_⟩
    · intro l hl
      simp only [monitor_new_leads, Bool.false_eq_true, if_false] at hl ⊢
      exact ⟨hidx l hl, hfold.2 l hl⟩
    · simp only [monitor_new_leads, Bool.false_eq_true, if_false]
      exact hpw

theorem runDiscovery_spec : ∀ (steps : List (Bool × Sheet)) (m : Nat),
    m ≤ (runDiscovery steps m).2 ∧
    (∀ l ∈ (runDiscovery steps m).1,
      m < l.index + 2 ∧ l.index + 2 ≤ (runDiscovery steps m).2) ∧
    ((runDiscovery steps m).1).Pairwise (fun a b => a.index < b.index) := by
  intro steps
  induction steps with
  | nil => intro m; exact ⟨Nat.le_refl m, by simp [runDiscovery], by simp [runDiscovery]⟩
  | cons st rest ih =>
    intro m
    rcases st with ⟨e, s⟩
    have hm := monitor_new_leads_spec e s m
    have hr := ih (monitor_new_leads e s m).2
    have hrun : runDiscovery ((e, s) :: rest) m =
        ((monitor_new_leads e s m).1 ++ (runDiscovery rest (monitor_new_leads e s m).2).1,
          (runDiscovery rest (monitor_new_leads e s m).2).2) := by
      simp [runDiscovery]
    rw [hrun]
    refine ⟨Nat.le_trans hm.1 hr.1, ?_, ?_⟩
    · intro l hl
      rcases List.mem_append.mp hl with h | h
      · have h1 := (hm.2.1 l h).1
        have h2 := (hm.2.1 l h).2
        exact ⟨h1, Nat.le_trans h2 hr.1⟩
      · have h1 := (hr.2.1 l h).1
        have h2 := (hr.2.1 l h).2
        exact ⟨by have := hm.1; omega, h2⟩
    · rw [List.pairwise_append]
      refine ⟨hm.2.2, hr.2.2, ?_⟩
      intro a ha b hb
      have h1 := (hm.2.1 a ha).2
      have h2 := (hr.2.1 b hb).1
      omega

/-- C7: across every sequence of Supervisor.monitor_new_leads calls,
the high-water mark (last_processed_row) is non-decreasing, every
enqueued lead lies strictly beyond the mark current at its call
(index + 2 > mark) and ends at or below the new mark, and the complete
sequence of indices ever enqueued is strictly increasing, so no index
at or below the current mark is ever enqueued again. -/
theorem C7_discovery_monotone :
    (∀ (steps : List (Bool × Sheet)) (m : Nat), m ≤ (runDiscovery steps m).2) ∧
    (∀ (steps : List (Bool × Sheet)) (m : Nat) (l : Lead),
      l ∈ (runDiscovery steps m).1 →
        m < l.index + 2 ∧ l.index + 2 ≤ (runDiscovery steps m).2) ∧
    (∀ (steps : List (Bool × Sheet)) (m : Nat),
      ((runDiscovery steps m).1).Pairwise (fun a b => a.index < b.index)) :=
  ⟨fun steps m => (runDiscovery_spec steps m).1,
    fun steps m l hl => (runDiscovery_spec steps m).2.1 l hl,
    fun steps m => (runDiscovery_spec steps m).2.2⟩

/-- C7 witness: a single discovery pass over the demo sheet with mark 1
enqueues the demo lead, which lies strictly beyond the mark. -/
theorem C7_witness :
    1 < demoLead.index + 2 ∧
    demoLead.index + 2 ≤ (runDiscovery [(false, demoSheet)] 1).2 :=
  C7_discovery_monotone.2.1 [(false, demoSheet)] 1 demoLead (by decide)

/- ------------------------------------------------------------------
Theorems: the TaskQueue channels.
------------------------------------------------------------------ -/

theorem runQueueOps_spec : ∀ (ops : List QOp) (q : TaskQueue),
    (runQueueOps ops q).2.1 ++ (runQueueOps ops q).1.verification_queue =
      q.verification_queue ++ enqueuedVer ops ∧
    (runQueueOps ops q).2.2 ++ (runQueueOps ops q).1.outreach_queue =
      q.outreach_queue ++ enqueuedOut ops := by
  intro ops
  induction ops with
  | nil => intro q; simp [runQueueOps, enqueuedVer, enqueuedOut]
  | cons op rest ih =>
    intro q
    rcases q with ⟨vq, oq⟩
    cases op with
    | addVer l =>
      have h := ih (add_verification_task (TaskQueue.mk vq oq) l)
      simp only [add_verification_task] at h
      constructor
      · have h1 := h.1
        rw [show runQueueOps (QOp.addVer l :: rest) (TaskQueue.mk vq oq) =
            runQueueOps rest (TaskQueue.mk (vq ++ [l]) oq) from rfl]
        rw [h1]
        simp [enqueuedVer]
      · have h2 := h.2
        rw [show runQueueOps (QOp.addVer l :: rest) (TaskQueue.mk vq oq) =
            runQueueOps rest (TaskQueue.mk (vq ++ [l]) oq) from rfl]
        rw [h2]
        simp [enqueuedOut]
    | addOut l =>
      have h := ih (add_outreach_task (TaskQueue.mk vq oq) l)
      simp only [add_outreach_task] at h
      constructor
      · have h1 := h.1
        rw [show runQueueOps (QOp.addOut l :: rest) (TaskQueue.mk vq oq) =
            runQueueOps rest (TaskQueue.mk vq (oq ++ [l])) from rfl]
        rw [h1]
        simp [enqueuedVer]
      · have h2 := h.2
        rw [show runQueueOps (QOp.addOut l :: rest) (TaskQueue.mk vq oq) =
            runQueueOps rest (TaskQueue.mk vq (oq ++ [l])) from rfl]
        rw [h2]
        simp [enqueuedOut]
    | getVer =>
      cases vq with
      | nil =>
        have h := ih (TaskQueue.mk [] oq)
        constructor
        · have h1 := h.1
          rw [show runQueueOps (QOp.getVer :: rest) (TaskQueue.mk [] oq) =
              ((runQueueOps rest (TaskQueue.mk [] oq)).1,
                (none : Option Lead).toList ++ (runQueueOps rest (TaskQueue.mk [] oq)).2.1,
                (runQueueOps rest (TaskQueue.mk [] oq)).2.2) from rfl]
          simpa [enqueuedVer] using h1
        · have h2 := h.2
          rw [show runQueueOps (QOp.getVer :: rest) (TaskQueue.mk [] oq) =
              ((runQueueOps rest (TaskQueue.mk [] oq)).1,
                (none : Option Lead).toList ++ (runQueueOps rest (TaskQueue.mk [] oq)).2.1,
                (runQueueOps rest (TaskQueue.mk [] oq)).2.2) from rfl]
          simpa [enqueuedOut] using h2
      | cons t ts =>
        have h := ih (TaskQueue.mk ts oq)
        constructor
        · have h1 := h.1
          rw [show runQueueOps (QOp.getVer :: rest) (TaskQueue.mk (t :: ts) oq) =
              ((runQueueOps rest (TaskQueue.mk ts oq)).1,
                (some t).toList ++ (runQueueOps rest (TaskQueue.mk ts oq)).2.1,
                (runQueueOps rest (TaskQueue.mk ts oq)).2.2) from rfl]
          simp only [Option.toList_some, List.singleton_append, List.cons_append,
            List.nil_append]
          rw [h1]
          simp [enqueuedVer]
        · have h2 := h.2
          rw [show runQueueOps (QOp.getVer :: rest) (TaskQueue.mk (t :: ts) oq) =
              ((runQueueOps rest (TaskQueue.mk ts oq)).1,
                (some t).toList ++ (runQueueOps rest (TaskQueue.mk ts oq)).2.1,
                (runQueueOps rest (TaskQueue.mk ts oq)).2.2) from rfl]
          rw [h2]
          simp [enqueuedOut]
    | getOut =>
      cases oq with
      | nil =>
        have h := ih (TaskQueue.mk vq [])
        constructor
        · have h1 := h.1
          rw [show runQueueOps (QOp.getOut :: rest) (TaskQueue.mk vq []) =
              ((runQueueOps rest (TaskQueue.mk vq [])).1,
                (runQueueOps rest (TaskQueue.mk vq [])).2.1,
                (none : Option Lead).toList ++ (runQueueOps rest (TaskQueue.mk vq [])).2.2)
              from rfl]
          simpa [enqueuedVer] using h1
        · have h2 := h.2
          rw [show runQueueOps (QOp.getOut :: rest) (TaskQueue.mk vq []) =
              ((runQueueOps rest (TaskQueue.mk vq [])).1,
                (runQueueOps rest (TaskQueue.mk vq [])).2.1,
                (none : Option Lead).toList ++ (runQueueOps rest (TaskQueue.mk vq [])).2.2)
              from rfl]
          simpa [enqueuedOut] using h2
      | cons t ts =>
        have h := ih (TaskQueue.mk vq ts)
        constructor
        · have h1 := h.1
          rw [show runQueueOps (QOp.getOut :: rest) (TaskQueue.mk vq (t :: ts)) =
              ((runQueueOps rest (TaskQueue.mk vq ts)).1,
                (runQueueOps rest (TaskQueue.mk vq ts)).2.1,
                (some t).toList ++ (runQueueOps rest (TaskQueue.mk vq ts)).2.2) from rfl]
          rw [h1]
          simp [enqueuedVer]
        · have h2 := h.2
          rw [show runQueueOps (QOp.getOut :: rest) (TaskQueue.mk vq (t :: ts)) =
              ((runQueueOps rest (TaskQueue.mk vq ts)).1,
                (runQueueOps rest (TaskQueue.mk vq ts)).2.1,
                (some t).toList ++ (runQueueOps rest (TaskQueue.mk vq ts)).2.2) from rfl]
          simp only [Option.toList_some, List.singleton_append, List.cons_append,
            List.nil_append]
          rw [h2]
          simp [enqueuedOut]

/-- C8: for every sequence of TaskQueue operations, each channel
behaves as an independent FIFO queue: the tasks returned by its dequeue
calls, followed by what remains in the channel, are exactly the initial
channel contents followed by the tasks enqueued on that channel in
enqueue order (so dequeue delivers each task once, in enqueue order,
with no priority and no deduplication); and dequeue on an empty channel
returns none at once, leaving the queue unchanged. -/
theorem C8_fifo_channels :
    (∀ (ops : List QOp) (q : TaskQueue),
      (runQueueOps ops q).2.1 ++ (runQueueOps ops q).1.verification_queue =
        q.verification_queue ++ enqueuedVer ops) ∧
    (∀ (ops : List QOp) (q : TaskQueue),
      (runQueueOps ops q).2.2 ++ (runQueueOps ops q).1.outreach_queue =
        q.outreach_queue ++ enqueuedOut ops) ∧
    (∀ oq : List Lead,
      get_verification_task (TaskQueue.mk [] oq) = (none, TaskQueue.mk [] oq)) ∧
    (∀ vq : List Lead,
      get_outreach_task (TaskQueue.mk vq []) = (none, TaskQueue.mk vq [])) ∧
    (∀ (t : Lead) (ts oq : List Lead),
      get_verification_task (TaskQueue.mk (t :: ts) oq) = (some t, TaskQueue.mk ts oq)) ∧
    (∀ (t : Lead) (ts vq : List Lead),
      get_outreach_task (TaskQueue.mk vq (t :: ts)) = (some t, TaskQueue.mk vq ts)) :=
  ⟨fun ops q => (runQueueOps_spec ops q).1, fun ops q => (runQueueOps_spec ops q).2,
    fun _ => rfl, fun _ => rfl, fun _ _ _ => rfl, fun _ _ _ => rfl⟩

/- ------------------------------------------------------------------
Theorems: update_lead column resolution (CRMHandler.update_lead).
------------------------------------------------------------------ -/

theorem cellsOf_cons (headers : List String) (cv : String × String)
    (rest : List (String × String)) :
    cellsOf headers (cv :: rest) =
      match colIndex? headers cv.1 with
      | none => cellsOf headers rest
      | some i => (i, cv.2) :: cellsOf headers rest := by
  unfold cellsOf
  rw [List.filterMap_cons]
  cases hc : colIndex? headers cv.1 <;> simp [hc]

theorem cellsOf_filter_known (headers : List String) : ∀ (u : List (String × String)),
    cellsOf headers (u.filter (fun cv => decide (cv.1 ∈ headers))) = cellsOf headers u := by
  intro u
  induction u with
  | nil => rfl
  | cons cv rest ih =>
    rw [List.filter_cons]
    by_cases hm : cv.1 ∈ headers
    · rw [if_pos (decide_eq_true hm)]
      rw [cellsOf_cons, cellsOf_cons, ih]
    · rw [if_neg (by simp [hm])]
      have hnone : colIndex? headers cv.1 = none := (colIndex?_eq_none_iff headers cv.1).mpr hm
      have hr2 : cellsOf headers (cv :: rest) = cellsOf headers rest := by
        rw [cellsOf_cons, hnone]
      rw [hr2]
      exact ih

theorem cellsOf_all_unknown {headers : List String} : ∀ {u : List (String × String)},
    (∀ cv ∈ u, cv.1 ∉ headers) → cellsOf headers u = [] := by
  intro u
  induction u with
  | nil => intro _; rfl
  | cons cv rest ih =>
    intro h
    have hnone : colIndex? headers cv.1 = none :=
      (colIndex?_eq_none_iff headers cv.1).mpr (h cv (List.mem_cons_self cv rest))
    have hr2 : cellsOf headers (cv :: rest) = cellsOf headers rest := by
      rw [cellsOf_cons, hnone]
    rw [hr2]
    exact ih (fun x hx => h x (List.mem_cons_of_mem cv hx))

/-- C9: CRMHandler.update_lead never fails on unknown field names: an
update behaves exactly like the same update restricted to the field
names that resolve against the header row, every resolving field is
still applied (its value is readable back afterwards), and an update
consisting only of unknown field names leaves the sheet unchanged. -/
theorem C9_update_unknown_fields_skipped (s : Sheet) (r : Nat) (u : List (String × String))
    (k v : String) (hr : r < s.rows.length) (hk : k ∈ s.headers)
    (hnd : (u.map Prod.fst).Nodup) (hm : (k, v) ∈ u) :
    update_lead s r u = update_lead s r (u.filter (fun cv => decide (cv.1 ∈ s.headers))) ∧
    readField (update_lead s r u) r k = some v ∧
    (∀ u2 : List (String × String), (∀ cv ∈ u2, cv.1 ∉ s.headers) →
      update_lead s r u2 = s) := by
  refine ⟨?_, readField_update_lead_mem s r u k v hr hk hnd hm, ?_⟩
  · unfold update_lead
    rw [cellsOf_filter_known]
  · intro u2 h2
    unfold update_lead
    rw [cellsOf_all_unknown h2]
    have happ : applyCells (s.rows.getD r []) [] = s.rows.getD r [] := rfl
    rw [happ, set_getD_self [] s.rows r]

/-- C9 witness: an update mixing an unknown column with the Notes
column still writes the Notes value. -/
theorem C9_witness :
    readField (update_lead demoSheet 0 [("Bogus Column", "x"), ("Notes", "hello")]) 0
      "Notes" = some "hello" :=
  (C9_update_unknown_fields_skipped demoSheet 0 [("Bogus Column", "x"), ("Notes", "hello")]
    "Notes" "hello" (by decide) (by decide) (by decide) (by decide)).2.1

end CRM
